import Mathlib

/- Verification of the f-xoss transport stack, shallowly embedded from the Rust
source.  Bytes are modelled as `Nat` (a byte value is `< 256`); machine-integer
truncation is written explicitly as `% 256` / `% 2 ^ 16` where the source
performs a narrowing cast.  Fallible Rust code returns `Except`/`Option`; a
Rust panic (out-of-bounds index, failed `assert!`, failed `expect`) is
modelled as the `none` of an outer `Option` layer, distinct from returned
errors. -/

deriving instance DecidableEq for Except

/-! ## Control-message framing (`src/transport/ctl_message/mod.rs`) -/

/-- Enumeration of control message types, mirroring `ControlMessageType`
(`#[repr(u8)]` with explicit discriminants, decoded via `try_from_primitive`). -/
inductive ControlMessageType where
  | DbgCmd
  | Idle
  | RequestReturn
  | Returning
  | RequestSend
  | Accept
  | RequestCap
  | ReturnCap
  | RequestDel
  | DelSuccess
  | RequestDetail
  | RequestStop
  | ErrVali
  | ErrNoFile
  | ErrMemory
  | ErrStatus
  | ErrDecode
  | TimeSet
  | TimeSetRtn
  | RequestMga
  | ReturnMga
  | StatusAct
  | RequestClr
  | ReturnClr
  | DfuEnter
  | StatusReturn
  deriving DecidableEq

/-- Discriminant of each control message type (the `u8` value of the enum). -/
def ControlMessageType.code : ControlMessageType → Nat
  | .DbgCmd => 0x00
  | .Idle => 0x04
  | .RequestReturn => 0x05
  | .Returning => 0x06
  | .RequestSend => 0x07
  | .Accept => 0x08
  | .RequestCap => 0x09
  | .ReturnCap => 0x0A
  | .RequestDel => 0x0D
  | .DelSuccess => 0x0E
  | .RequestDetail => 0x0F
  | .RequestStop => 0x1F
  | .ErrVali => 0x11
  | .ErrNoFile => 0x12
  | .ErrMemory => 0x13
  | .ErrStatus => 0x14
  | .ErrDecode => 0x15
  | .TimeSet => 0x54
  | .TimeSetRtn => 0x55
  | .RequestMga => 0x77
  | .ReturnMga => 0x78
  | .StatusAct => 0xAC
  | .RequestClr => 0xCC
  | .ReturnClr => 0xCD
  | .DfuEnter => 0xDF
  | .StatusReturn => 0xFF

/-- Model of `ControlMessageType::try_from_primitive`: recover the enum value
from a discriminant, `none` on an unknown discriminant. -/
def ControlMessageType.tryFromPrimitive (n : Nat) : Option ControlMessageType :=
  match n with
  | 0x00 => some .DbgCmd
  | 0x04 => some .Idle
  | 0x05 => some .RequestReturn
  | 0x06 => some .Returning
  | 0x07 => some .RequestSend
  | 0x08 => some .Accept
  | 0x09 => some .RequestCap
  | 0x0A => some .ReturnCap
  | 0x0D => some .RequestDel
  | 0x0E => some .DelSuccess
  | 0x0F => some .RequestDetail
  | 0x1F => some .RequestStop
  | 0x11 => some .ErrVali
  | 0x12 => some .ErrNoFile
  | 0x13 => some .ErrMemory
  | 0x14 => some .ErrStatus
  | 0x15 => some .ErrDecode
  | 0x54 => some .TimeSet
  | 0x55 => some .TimeSetRtn
  | 0x77 => some .RequestMga
  | 0x78 => some .ReturnMga
  | 0xAC => some .StatusAct
  | 0xCC => some .RequestClr
  | 0xCD => some .ReturnClr
  | 0xDF => some .DfuEnter
  | 0xFF => some .StatusReturn
  | _ => none

/-- A raw control message: a type and a body (body bytes, as in `RawControlMessage`). -/
structure RawControlMessage where
  msg_type : ControlMessageType
  body : List Nat
  deriving DecidableEq

/-- XOR checksum over a buffer, mirroring `calc_checksum`
(`buf.iter().fold(0, |acc, x| acc ^ x)`). -/
def calc_checksum (buf : List Nat) : Nat :=
  buf.foldl (fun acc x => acc ^^^ x) 0

/-- Errors returned (not panics) by `RawControlMessage::read`. -/
inductive ReadError where
  | unknownType (code : Nat)
  | badChecksum (expected got : Nat)
  deriving DecidableEq

/-- Rust slice `&l[a..b]`, which panics (here: `none`) when `a > b` or
`b > l.len()`. -/
def listSlice (l : List Nat) (a b : Nat) : Option (List Nat) :=
  if a ≤ b ∧ b ≤ l.length then some ((l.drop a).take (b - a)) else none

/-- Model of `RawControlMessage::read`.  The outer `Option` is `none` exactly
when the Rust code panics (indexing / slicing out of bounds, which happens for
buffers of length 0 or 1); the inner `Except` carries the returned error.
Note the source converts the type byte *before* checking the checksum. -/
def RawControlMessage.read (buf : List Nat) : Option (Except ReadError RawControlMessage) := do
  let len := buf.length
  let msg_type ← buf[0]?
  let data ← listSlice buf 1 (len - 1)
  let checksum ← buf[len - 1]?
  match ControlMessageType.tryFromPrimitive msg_type with
  | none => pure (.error (.unknownType msg_type))
  | some t =>
    let expected_checksum := calc_checksum (buf.take (len - 1))
    if checksum ≠ expected_checksum then
      pure (.error (.badChecksum expected_checksum checksum))
    else
      pure (.ok ⟨t, data⟩)

/-- Model of `RawControlMessage::write` into a buffer of length `bufLen`.
The source `assert!(len + 2 <= buf.len())` is a panic, modelled as `none`;
on success the function always returns the written frame. -/
def RawControlMessage.write (m : RawControlMessage) (bufLen : Nat) : Option (List Nat) :=
  if m.body.length + 2 ≤ bufLen then
    some (m.msg_type.code :: (m.body ++ [calc_checksum (m.msg_type.code :: m.body)]))
  else
    none

/-- Continuation-byte test for the UTF-8 validator. -/
def utf8Cont (b : Nat) : Bool := 0x80 ≤ b && b ≤ 0xBF

/-- Consume one UTF-8-encoded character (1 to 4 bytes) from the front of a
byte list, returning the remaining bytes, or `none` if the prefix is not a
valid UTF-8 character. -/
def utf8Step : List Nat → Option (List Nat)
  | [] => none
  | b :: rest =>
    if b ≤ 0x7F then some rest
    else if 0xC2 ≤ b && b ≤ 0xDF then
      match rest with
      | c1 :: r => if utf8Cont c1 then some r else none
      | [] => none
    else if b = 0xE0 then
      match rest with
      | c1 :: c2 :: r =>
        if (0xA0 ≤ c1 && c1 ≤ 0xBF) && utf8Cont c2 then some r else none
      | _ => none
    else if (0xE1 ≤ b && b ≤ 0xEC) || b = 0xEE || b = 0xEF then
      match rest with
      | c1 :: c2 :: r => if utf8Cont c1 && utf8Cont c2 then some r else none
      | _ => none
    else if b = 0xED then
      match rest with
      | c1 :: c2 :: r =>
        if (0x80 ≤ c1 && c1 ≤ 0x9F) && utf8Cont c2 then some r else none
      | _ => none
    else if b = 0xF0 then
      match rest with
      | c1 :: c2 :: c3 :: r =>
        if (0x90 ≤ c1 && c1 ≤ 0xBF) && utf8Cont c2 && utf8Cont c3 then some r else none
      | _ => none
    else if 0xF1 ≤ b && b ≤ 0xF3 then
      match rest with
      | c1 :: c2 :: c3 :: r =>
        if utf8Cont c1 && utf8Cont c2 && utf8Cont c3 then some r else none
      | _ => none
    else if b = 0xF4 then
      match rest with
      | c1 :: c2 :: c3 :: r =>
        if (0x80 ≤ c1 && c1 ≤ 0x8F) && utf8Cont c2 && utf8Cont c3 then some r else none
      | _ => none
    else none

/-- Fuel-indexed loop of the UTF-8 validator; each step consumes at least one
byte, so fuel equal to the list length always suffices. -/
def utf8ValidGo : Nat → List Nat → Bool
  | _, [] => true
  | 0, _ :: _ => false
  | fuel + 1, b :: rest =>
    match utf8Step (b :: rest) with
    | some r => utf8ValidGo fuel r
    | none => false

/-- Validity of a byte sequence as UTF-8 (the check performed by Rust's
`std::str::from_utf8`). -/
def utf8Valid (l : List Nat) : Bool := utf8ValidGo l.length l

/-- Device-reported control errors, mirroring `ControlError`.  Bodies are kept
as byte lists (the source converts them to `String` after a UTF-8 check). -/
inductive ControlError where
  | Validation
  | NoFile (s : List Nat)
  | NoMemory
  | InvalidTransactionStatus
  | InvalidFileStatus (s : List Nat)
  | DecodeFailed (s : List Nat)
  deriving DecidableEq

/-- Model of `RawControlMessage::into_result`.  The outer `Option` is `none`
exactly when the source panics: the `.expect("Invalid UTF-8 in ...")` on a
non-UTF-8 body of an `ErrNoFile`, `ErrStatus` (body other than `"\0"`), or
`ErrDecode` reply. -/
def RawControlMessage.into_result (m : RawControlMessage) :
    Option (Except ControlError RawControlMessage) :=
  match m.msg_type with
  | .ErrVali => some (.error .Validation)
  | .ErrNoFile =>
    if utf8Valid m.body then some (.error (.NoFile m.body)) else none
  | .ErrMemory => some (.error .NoMemory)
  | .ErrStatus =>
    if m.body = [0] then some (.error .InvalidTransactionStatus)
    else if utf8Valid m.body then some (.error (.InvalidFileStatus m.body)) else none
  | .ErrDecode =>
    if utf8Valid m.body then some (.error (.DecodeFailed m.body)) else none
  | _ => some (.ok m)

/-- Model of `RawControlMessage::expect_ok`: classify, then demand the given
reply type, returning the body.  Panics and returned errors are collapsed to
`none` here (no claim distinguishes them on this path). -/
def expect_ok (m : RawControlMessage) (ty : ControlMessageType) : Option (List Nat) :=
  match m.into_result with
  | some (.ok m2) => if m2.msg_type = ty then some m2.body else none
  | _ => none

/-- Outcome of `CtlChannel::send_ctl` (`src/transport/device/ctl.rs`). -/
inductive SendOutcome where
  | transmitted (frame : List Nat)
  | tooLongError
  | panicked
  deriving DecidableEq

/-- Model of `CtlChannel::send_ctl`: encode into the 20-byte `CtlBuffer`
(`RawControlMessage::write`, whose length `assert!` panics — `.panicked`),
then `send_ctl_raw`, which returns the error `"Control message too long"`
(`.tooLongError`) when the frame exceeds 20 bytes, and otherwise writes the
frame to the BLE characteristic (`.transmitted`). -/
def send_ctl (m : RawControlMessage) : SendOutcome :=
  match m.write 20 with
  | none => .panicked
  | some f => if 20 < f.length then .tooLongError else .transmitted f

/-- Accumulating digit loop of Rust `from_str_radix` for an unsigned type with
exclusive bound `bound` (`2^32` or `2^64`): each byte must be an ASCII digit,
and `checked_mul`/`checked_add` fail (return `none`) on overflow. -/
def digitsGo (bound : Nat) : Nat → List Nat → Option Nat
  | acc, [] => some acc
  | acc, d :: r =>
    if 48 ≤ d && d ≤ 57 then
      let acc2 := acc * 10 + (d - 48)
      if acc2 < bound then digitsGo bound acc2 r else none
    else none

/-- Model of Rust `from_str_radix(s, 10)` for an unsigned integer type with
exclusive bound `bound`: an optional leading `'+'` (byte 43; `'-'` is not
stripped for unsigned types), then one or more ASCII digits, no overflow. -/
def from_str_radix_u (bound : Nat) (s : List Nat) : Option Nat :=
  match s with
  | [] => none
  | b :: rest =>
    let digits := if b = 43 then rest else b :: rest
    match digits with
    | [] => none
    | _ :: _ => digitsGo bound 0 digits

/-- Rust `u64::from_str_radix(s, 10)` on the bytes of `s`. -/
def u64_from_str_radix (s : List Nat) : Option Nat := from_str_radix_u (2 ^ 64) s

/-- Rust `str::parse::<u32>()` on the bytes of `s`. -/
def u32_parse (s : List Nat) : Option Nat := from_str_radix_u (2 ^ 32) s

/-- Rust `str::split_once('/')` at the byte level (`'/'` is ASCII, so byte
and char splitting agree on valid UTF-8): split at the first occurrence. -/
def split_once (sep : Nat) : List Nat → Option (List Nat × List Nat)
  | [] => none
  | b :: r =>
    if b = sep then some ([], r)
    else (split_once sep r).map (fun p => (b :: p.1, p.2))

/-- Result of `XossDevice::get_memory_capacity` (`src/device.rs`). -/
structure MemoryCapacity where
  free_kb : Nat
  total_kb : Nat
  deriving DecidableEq

/-- Model of the reply-processing part of `XossDevice::get_memory_capacity`:
`expect_ok(ReturnCap)`, then UTF-8 check, `split_once('/')`, and two
`str::parse::<u32>` calls. -/
def get_memory_capacity (reply : RawControlMessage) : Option MemoryCapacity :=
  match expect_ok reply .ReturnCap with
  | none => none
  | some b =>
    if utf8Valid b then
      match split_once 47 b with
      | none => none
      | some (l, r) =>
        match u32_parse l with
        | none => none
        | some free =>
          match u32_parse r with
          | none => none
          | some total => some ⟨free, total⟩
    else none

/-! ## YMODEM-variant engine (`src/transport/ymodem.rs`) -/

/-- Start byte of a 128-byte-data packet. -/
def SOH : Nat := 0x01

/-- Start byte of a 1024-byte-data packet. -/
def STX : Nat := 0x02

/-- Data size of an SOH packet. -/
def SMALL_DATA_SIZE : Nat := 128

/-- Data size of an STX packet. -/
def LARGE_DATA_SIZE : Nat := 1024

/-- One shift-xor round of the reflected CRC-16/ARC update (reversed
polynomial `0xA001`). -/
def crcRound (c : Nat) : Nat :=
  if c % 2 = 1 then (c >>> 1) ^^^ 0xA001 else c >>> 1

/-- Process one input byte of CRC-16/ARC: eight shift-xor rounds. -/
def crcByte (c : Nat) : Nat := crcRound^[8] c

/-- CRC-16/ARC (poly 0x8005 reflected, init 0, no xor-out) of a byte list,
as computed by `crc16::State::<crc16::ARC>::calculate`.  `b % 256` is the
`u8` value of the list entry (the `as u16` widening of the source). -/
def crc16_arc (data : List Nat) : Nat :=
  data.foldl (fun crc b => crcByte (crc ^^^ b % 256)) 0

/-- A parsed YMODEM packet: sequence number and data bytes
(`YModemPacket`). -/
structure YModemPacket where
  seq : Nat
  data : List Nat
  deriving DecidableEq

/-- The `ymodem::Error` enum. -/
inductive YmError where
  | InvalidStart
  | InvalidLength
  | InvalidSeq
  | InvalidCrc
  deriving DecidableEq

/-- Model of `YModemPacket::data_len`: data size for a start byte. -/
def data_len (start : Nat) : Except YmError Nat :=
  if start = SOH then .ok SMALL_DATA_SIZE
  else if start = STX then .ok LARGE_DATA_SIZE
  else .error .InvalidStart

/-- Model of `YModemPacket::start_byte`; the source panics (`none`) on a data
length other than 128 or 1024. -/
def YModemPacket.start_byte (p : YModemPacket) : Option Nat :=
  if p.data.length = SMALL_DATA_SIZE then some SOH
  else if p.data.length = LARGE_DATA_SIZE then some STX
  else none

/-- Model of `YModemPacket::parse`.  Indexing uses `getD` only at positions
the preceding length checks have shown to be in bounds, so no panic arises. -/
def YModemPacket.parse (raw : List Nat) : Except YmError YModemPacket :=
  if raw.length < 2 then .error .InvalidLength
  else
    match data_len (raw.getD 0 0) with
    | .error e => .error e
    | .ok dl =>
      if raw.length ≠ dl + 5 then .error .InvalidLength
      else
        let seq := raw.getD 1 0
        let seq_inv := raw.getD 2 0
        if seq ≠ seq_inv ^^^ 0xff then .error .InvalidSeq
        else
          let data := (raw.drop 3).take (raw.length - 2 - 3)
          let crc := (raw.getD (raw.length - 2) 0) <<< 8 ||| raw.getD (raw.length - 1) 0
          let crc_calc := crc16_arc data
          if crc ≠ crc_calc then .error .InvalidCrc
          else .ok ⟨seq, data⟩

/-- The frame written by `YModemPacket::serialize`:
`start ∥ seq ∥ seq^0xff ∥ data ∥ crc_hi ∥ crc_lo` (the two `as u8` casts of
the `u16` CRC are the explicit `% 256`). -/
def serializeFrame (s : Nat) (d : List Nat) : List Nat :=
  (if d.length = SMALL_DATA_SIZE then SOH else STX) :: s :: (s ^^^ 0xff) ::
    (d ++ [(crc16_arc d >>> 8) % 256, crc16_arc d % 256])

/-- Model of `YModemPacket::serialize` (together with the length `assert!` of
`YModemPacket::new`): panics (`none`) unless the data length is 128 or 1024. -/
def YModemPacket.serialize (p : YModemPacket) : Option (List Nat) :=
  p.start_byte.map fun st =>
    st :: p.seq :: (p.seq ^^^ 0xff) ::
      (p.data ++ [(crc16_arc p.data >>> 8) % 256, crc16_arc p.data % 256])

/-- The `while let Some(s) = data.strip_suffix(b"\0")` loop of
`YModemHeader::parse`, with explicit fuel (the caller passes the list length,
which bounds the number of iterations). -/
def strip_nul_suffix : Nat → List Nat → List Nat
  | 0, l => l
  | fuel + 1, l => if l.getLast? = some 0 then strip_nul_suffix fuel l.dropLast else l

/-- Rust `slice::split(p)`: split at every separator byte, keeping empty
pieces (so `n` separators yield `n + 1` pieces). -/
def sliceSplit (p : Nat → Bool) : List Nat → List (List Nat)
  | [] => [[]]
  | b :: r =>
    if p b then [] :: sliceSplit p r
    else
      match sliceSplit p r with
      | g :: gs => (b :: g) :: gs
      | [] => [[b]]

/-- The separator predicate of `YModemHeader::parse`: NUL or space. -/
def isHeaderSep (b : Nat) : Bool := b = 0 || b = 32

/-- The token list `YModemHeader::parse` iterates over: strip trailing NULs,
split on NUL/space, drop empty pieces. -/
def headerTokens (data : List Nat) : List (List Nat) :=
  (sliceSplit isHeaderSep (strip_nul_suffix data.length data)).filter (fun s => !s.isEmpty)

/-- The `try_for_each` fold of `YModemHeader::parse`: each token must be
UTF-8; the first nonempty token becomes the name, every later token is parsed
as a `u64` and stored into `size` (overwriting the previous value). -/
def headerFold : List Nat × Nat → List (List Nat) → Option (List Nat × Nat)
  | st, [] => some st
  | (name, size), s :: rest =>
    if utf8Valid s then
      if name.isEmpty then headerFold (s, size) rest
      else
        match u64_from_str_radix s with
        | some v => headerFold (name, v) rest
        | none => none
    else none

/-- Model of `YModemHeader::parse` on the packet data: returns the file name
(bytes) and size. -/
def YModemHeader.parse (data : List Nat) : Option (List Nat × Nat) :=
  headerFold ([], 0) (headerTokens data)

/-- Model of the data-packet loop of `receive_file` (the `while len_left > 0`
loop): `frames` is the sequence of raw packets arriving on the wire, and the
result is the list of yielded chunks (`none` when the transfer aborts: a
parse error, a sequence mismatch, or no further packet while data is still
expected). -/
def receive_loop (lenLeft seq : Nat) : List (List Nat) → Option (List (List Nat))
  | [] => if lenLeft = 0 then some [] else none
  | f :: fs =>
    if lenLeft = 0 then some []
    else
      match YModemPacket.parse f with
      | .error _ => none
      | .ok pkt =>
        if pkt.seq ≠ (seq + 1) % 256 then none
        else
          let dl := min lenLeft pkt.data.length
          (receive_loop (lenLeft - dl) ((seq + 1) % 256) fs).map
            (fun out => pkt.data.take dl :: out)

/-- Frames of a well-formed sender: the chunks serialized with consecutive
(wrapping) sequence numbers starting after `seq`. -/
def mkFrames : Nat → List (List Nat) → List (List Nat)
  | _, [] => []
  | seq, c :: cs => serializeFrame ((seq + 1) % 256) c :: mkFrames ((seq + 1) % 256) cs

/-- Decimal ASCII digits of `n` (Rust `format!("{}", n)`), via a fuel-indexed
helper (`fuel = n` always suffices since `n / 10 < n` for `n ≥ 10`). -/
def decimalBytesGo : Nat → Nat → List Nat
  | 0, n => [48 + n % 10]
  | fuel + 1, n => if n < 10 then [48 + n] else decimalBytesGo fuel (n / 10) ++ [48 + n % 10]

/-- Decimal ASCII digits of `n`. -/
def decimalBytes (n : Nat) : List Nat := decimalBytesGo n n

/-- The data-packet loop of `send_file`, with explicit fuel (the caller
passes the file length, which bounds the iteration count since each round
consumes at least one byte when `0 < pds`): produces the `(seq, data)` pairs
of the packets sent, each chunk zero-padded to the packet data size `pds`. -/
def send_chunks : Nat → Nat → Nat → List Nat → List (Nat × List Nat)
  | _, _, _, [] => []
  | 0, _, _, _ :: _ => []
  | fuel + 1, pds, seq, b :: r =>
    let dl := min (b :: r).length pds
    (((seq + 1) % 256), (b :: r).take dl ++ List.replicate (pds - dl) 0) ::
      send_chunks fuel pds ((seq + 1) % 256) ((b :: r).drop dl)

/-- Model of the pure planning part of `send_file`: the header payload
(`"{filename} {size}"` zero-padded to 128 bytes; `none` models the
`bail!("Filename too long")` when it exceeds 128 bytes, reached before any
packet is written), the packet data size choice, and the data packets. -/
def send_file_plan (filename : List Nat) (file : List Nat) :
    Option (List Nat × List (Nat × List Nat)) :=
  let header_str := filename ++ 32 :: decimalBytes file.length
  let packet_data_size :=
    if file.length < LARGE_DATA_SIZE then SMALL_DATA_SIZE else LARGE_DATA_SIZE
  if SMALL_DATA_SIZE < header_str.length then none
  else
    some (header_str ++ List.replicate (SMALL_DATA_SIZE - header_str.length) 0,
          send_chunks file.length packet_data_size 0 file)

/-- Modelled from the spec: the reply-body shape the claim describes for
`ReturnCap` — "the ASCII string of a decimal u32, a `'/'` character, and a
second decimal u32" — as a decidable predicate: a split at a `'/'` into two
canonical decimal `u32` numerals (nonempty, digits only, no leading zero
except for `"0"` itself, value below `2^32`). -/
def isCanonicalU32Decimal (l : List Nat) : Bool :=
  decide (l ≠ []) && decide (∀ b ∈ l, 48 ≤ b ∧ b ≤ 57) &&
    decide (l.head? = some 48 → l = [48]) &&
    decide (l.foldl (fun a b => a * 10 + (b - 48)) 0 < 2 ^ 32)

/-- Modelled from the spec: a `ReturnCap` body of the claimed shape
`"<free_kb>/<total_kb>"`. -/
def capBodySpecShape (body : List Nat) : Bool :=
  (List.range body.length).any (fun i =>
    decide (body.getD i 0 = 47) && isCanonicalU32Decimal (body.take i) &&
      isCanonicalU32Decimal (body.drop (i + 1)))

/-! ## Lemmas about control-message framing -/

lemma tryFrom_code (t : ControlMessageType) :
    ControlMessageType.tryFromPrimitive t.code = some t := by
  cases t <;> rfl

lemma code_tryFrom {n : Nat} {t : ControlMessageType}
    (h : ControlMessageType.tryFromPrimitive n = some t) : t.code = n := by
  unfold ControlMessageType.tryFromPrimitive at h
  split at h <;>
    first
      | (injection h with h2; subst h2; rfl)
      | exact absurd h (by simp)

lemma calc_checksum_concat (l : List Nat) (x : Nat) :
    calc_checksum (l ++ [x]) = calc_checksum l ^^^ x := by
  simp [calc_checksum, List.foldl_append]

lemma read_decomp (b0 : Nat) (mid : List Nat) (last : Nat) :
    RawControlMessage.read (b0 :: (mid ++ [last])) =
      match ControlMessageType.tryFromPrimitive b0 with
      | none => some (.error (.unknownType b0))
      | some t =>
        if last ≠ calc_checksum (b0 :: mid) then
          some (.error (.badChecksum (calc_checksum (b0 :: mid)) last))
        else some (.ok ⟨t, mid⟩) := by
  have hlen : (b0 :: (mid ++ [last])).length - 1 = mid.length + 1 := by simp
  have h0 : (b0 :: (mid ++ [last]))[0]? = some b0 := by simp
  have hslice : listSlice (b0 :: (mid ++ [last])) 1 (mid.length + 1) = some mid := by
    rw [listSlice, if_pos ⟨by omega, by simp⟩]
    simp [List.take_left]
  have hck : (b0 :: (mid ++ [last]))[mid.length + 1]? = some last := by
    have := List.getElem?_concat_length (b0 :: mid) last
    simpa using this
  have htake : (b0 :: (mid ++ [last])).take (mid.length + 1) = b0 :: mid := by
    have := List.take_left mid [last]
    simp [List.take_succ_cons, this]
  unfold RawControlMessage.read
  simp only [hlen, h0, hslice, hck, htake, Option.bind_eq_bind, Option.some_bind]
  cases h : ControlMessageType.tryFromPrimitive b0 <;> simp [h]

/-! ## Claims C3, C5, C6, C9, C10: control-message properties -/

/-- Claim C3: for every control message type `t` and body of length at most
18, decoding the encoding of `(t, body)` yields exactly `(t, body)` (and the
frame XORs to 0, with length `|body| + 2`); and for every 2-to-20-byte buffer
that decodes successfully, encoding the decoded message reproduces the buffer
byte for byte. -/
theorem ctl_message_roundtrip :
    (∀ (t : ControlMessageType) (body : List Nat), body.length ≤ 18 →
      ∃ f, RawControlMessage.write ⟨t, body⟩ 20 = some f ∧
        RawControlMessage.read f = some (.ok ⟨t, body⟩) ∧
        calc_checksum f = 0 ∧ f.length = body.length + 2) ∧
    (∀ (buf : List Nat) (m : RawControlMessage), 2 ≤ buf.length → buf.length ≤ 20 →
      RawControlMessage.read buf = some (.ok m) → m.write 20 = some buf) := by
  constructor
  · intro t body hb
    have hw : RawControlMessage.write ⟨t, body⟩ 20 =
        some (t.code :: (body ++ [calc_checksum (t.code :: body)])) := by
      rw [RawControlMessage.write, if_pos (by simp; omega)]
    refine ⟨_, hw, ?_, ?_, ?_⟩
    · rw [read_decomp, tryFrom_code]
      simp
    · have : t.code :: (body ++ [calc_checksum (t.code :: body)]) =
          (t.code :: body) ++ [calc_checksum (t.code :: body)] := by simp
      rw [this, calc_checksum_concat, Nat.xor_self]
    · simp
  · intro buf m h2 h20 hread
    obtain ⟨b0, rest, rfl⟩ : ∃ b0 rest, buf = b0 :: rest := by
      cases buf with
      | nil => simp at h2
      | cons a l => exact ⟨a, l, rfl⟩
    have hr : rest ≠ [] := by
      intro e
      subst e
      simp at h2
    obtain ⟨mid, last, rfl⟩ : ∃ mid last, rest = mid ++ [last] :=
      ⟨rest.dropLast, rest.getLast hr, (List.dropLast_append_getLast hr).symm⟩
    rw [read_decomp] at hread
    cases ht : ControlMessageType.tryFromPrimitive b0 with
    | none =>
      rw [ht] at hread
      simp at hread
    | some t =>
      simp only [ht] at hread
      split at hread
      · simp at hread
      · rename_i hck
        have hm : m = ⟨t, mid⟩ := by
          injection hread with hr2
          injection hr2 with hr3
          exact hr3.symm
        have hlast : last = calc_checksum (b0 :: mid) := by
          by_contra hc
          exact hck hc
        subst hm
        rw [RawControlMessage.write, if_pos (by simp at h20 ⊢; omega)]
        rw [code_tryFrom ht, hlast]
  

/-- Claim C3 witness: concrete instances of both round-trip directions
(`t = Idle`, body `[1, 2]`; buffer `[4, 1, 5]`). -/
theorem ctl_message_roundtrip_witness :
    (∃ f, RawControlMessage.write ⟨.Idle, [1, 2]⟩ 20 = some f ∧
      RawControlMessage.read f = some (.ok ⟨.Idle, [1, 2]⟩) ∧
      calc_checksum f = 0 ∧ f.length = 4) ∧
    RawControlMessage.write ⟨.Idle, [1]⟩ 20 = some [4, 1, 5] :=
  ⟨ctl_message_roundtrip.1 .Idle [1, 2] (by decide),
   ctl_message_roundtrip.2 [4, 1, 5] ⟨.Idle, [1]⟩ (by decide) (by decide) (by decide)⟩

/-- Claim C5 counterexample: the buffer `[3, 0]` has a bad checksum (the XOR
of its first byte is 3, its last byte is 0), and its type byte 3 is not in
the enumerated set.  The claim says decode fails with the bad-checksum error
"whatever the value of the type byte"; the code checks the type byte first
and returns the unknown-type error instead. -/
theorem ctl_read_unknown_type_first :
    RawControlMessage.read [3, 0] = some (.error (.unknownType 3)) ∧
    RawControlMessage.read [3, 0] ≠ some (.error (.badChecksum 3 0)) := by
  decide

/-- Claim C5 (amended): for buffers of length at least 2, decode fails with
the bad-checksum error when the checksum mismatches *and the type byte is in
the enumerated set*; when the type byte is unknown, decode fails with the
unknown-type error regardless of the checksum (the type check runs first). -/
theorem ctl_read_error_classification :
    (∀ (b0 : Nat) (mid : List Nat) (last : Nat) (t : ControlMessageType),
      ControlMessageType.tryFromPrimitive b0 = some t →
      last ≠ calc_checksum (b0 :: mid) →
      RawControlMessage.read (b0 :: (mid ++ [last])) =
        some (.error (.badChecksum (calc_checksum (b0 :: mid)) last))) ∧
    (∀ (b0 : Nat) (mid : List Nat) (last : Nat),
      ControlMessageType.tryFromPrimitive b0 = none →
      RawControlMessage.read (b0 :: (mid ++ [last])) =
        some (.error (.unknownType b0))) := by
  constructor
  · intro b0 mid last t ht hck
    rw [read_decomp]
    simp only [ht]
    rw [if_pos hck]
  · intro b0 mid last ht
    rw [read_decomp]
    simp only [ht]

/-- Claim C5 witness: a known-type buffer with a bad checksum yields the
bad-checksum error; an unknown-type buffer yields the unknown-type error. -/
theorem ctl_read_error_classification_witness :
    RawControlMessage.read [0, 5] = some (.error (.badChecksum 0 5)) ∧
    RawControlMessage.read [3, 3] = some (.error (.unknownType 3)) :=
  ⟨ctl_read_error_classification.1 0 [] 5 .DbgCmd (by decide) (by decide),
   ctl_read_error_classification.2 3 [] 3 (by decide)⟩

/-- Claim C6 counterexample: encoding and sending a control message with a
19-byte body does not fail with a returned "body too long" error: the
`assert!` inside `RawControlMessage::write` panics (before anything is
transmitted), which is a different outcome from the returned
`"Control message too long"` error of `send_ctl_raw`. -/
theorem send_ctl_19_panics :
    send_ctl ⟨.DbgCmd, List.replicate 19 0⟩ = .panicked ∧
    SendOutcome.panicked ≠ SendOutcome.tooLongError := by
  decide

/-- Claim C6 (amended): sending a control message with an 18-byte body
succeeds, transmitting a 20-byte frame that fits the 20-byte control buffer;
a body of 19 bytes or longer makes the encoding `assert!` panic before
anything is transmitted (rather than returning a body-too-long error). -/
theorem send_ctl_body_length (t : ControlMessageType) (body : List Nat) :
    (body.length = 18 →
      ∃ f, send_ctl ⟨t, body⟩ = .transmitted f ∧ f.length = 20) ∧
    (19 ≤ body.length → send_ctl ⟨t, body⟩ = .panicked) := by
  constructor
  · intro h18
    have hw : RawControlMessage.write ⟨t, body⟩ 20 =
        some (t.code :: (body ++ [calc_checksum (t.code :: body)])) := by
      rw [RawControlMessage.write, if_pos (by simp [h18])]
    refine ⟨t.code :: (body ++ [calc_checksum (t.code :: body)]), ?_, by simp [h18]⟩
    rw [send_ctl, hw]
    simp [h18]
  · intro h19
    have hw : RawControlMessage.write ⟨t, body⟩ 20 = none := by
      rw [RawControlMessage.write, if_neg (by simp; omega)]
    rw [send_ctl, hw]

/-- Claim C6 witness: concrete 18- and 19-byte bodies. -/
theorem send_ctl_body_length_witness :
    (∃ f, send_ctl ⟨.Idle, List.replicate 18 0⟩ = .transmitted f ∧ f.length = 20) ∧
    send_ctl ⟨.Idle, List.replicate 19 0⟩ = .panicked :=
  ⟨(send_ctl_body_length .Idle (List.replicate 18 0)).1 (by decide),
   (send_ctl_body_length .Idle (List.replicate 19 0)).2 (by decide)⟩

/-- Claim C9: `RawControlMessage::read` performs no input-length check: for
every buffer of length at least 2 it returns a value (success or error)
without panicking, but for a buffer of length 0 or 1 it panics on
out-of-bounds indexing (the slice `&buf[1..len-1]`, or `buf[0]` for the
empty buffer) instead of returning an error. -/
theorem ctl_read_totality :
    (∀ buf : List Nat, 2 ≤ buf.length → (RawControlMessage.read buf).isSome = true) ∧
    RawControlMessage.read [] = none ∧
    (∀ b : Nat, RawControlMessage.read [b] = none) := by
  refine ⟨?_, by decide, ?_⟩
  · intro buf h2
    obtain ⟨b0, rest, rfl⟩ : ∃ b0 rest, buf = b0 :: rest := by
      cases buf with
      | nil => simp at h2
      | cons a l => exact ⟨a, l, rfl⟩
    have hr : rest ≠ [] := by
      intro e
      subst e
      simp at h2
    obtain ⟨mid, last, rfl⟩ : ∃ mid last, rest = mid ++ [last] :=
      ⟨rest.dropLast, rest.getLast hr, (List.dropLast_append_getLast hr).symm⟩
    rw [read_decomp]
    cases ControlMessageType.tryFromPrimitive b0 <;> simp
    split <;> simp
  · intro b
    have : listSlice [b] 1 0 = none := by
      rw [listSlice, if_neg]
      omega
    simp [RawControlMessage.read, this]

/-- Claim C9 witness: a 2-byte buffer decodes without panic; a 1-byte buffer
panics. -/
theorem ctl_read_totality_witness :
    (RawControlMessage.read [0, 0]).isSome = true ∧ RawControlMessage.read [7] = none :=
  ⟨ctl_read_totality.1 [0, 0] (by decide), ctl_read_totality.2.2 7⟩

/-- Claim C10: `RawControlMessage::into_result` panics (instead of returning
an error) on a non-UTF-8 body of an `ErrNoFile`, `ErrDecode`, or `ErrStatus`
(body other than the single byte 0) reply; on a valid-UTF-8 body it returns
the corresponding `ControlError` variant carrying the body; and an
`ErrStatus` body equal to the single byte 0 yields
`InvalidTransactionStatus`. -/
theorem into_result_classification (body : List Nat) :
    (utf8Valid body = false →
      RawControlMessage.into_result ⟨.ErrNoFile, body⟩ = none ∧
      RawControlMessage.into_result ⟨.ErrDecode, body⟩ = none ∧
      (body ≠ [0] → RawControlMessage.into_result ⟨.ErrStatus, body⟩ = none)) ∧
    (utf8Valid body = true →
      RawControlMessage.into_result ⟨.ErrNoFile, body⟩ = some (.error (.NoFile body)) ∧
      RawControlMessage.into_result ⟨.ErrDecode, body⟩ = some (.error (.DecodeFailed body)) ∧
      (body ≠ [0] →
        RawControlMessage.into_result ⟨.ErrStatus, body⟩ =
          some (.error (.InvalidFileStatus body)))) ∧
    RawControlMessage.into_result ⟨.ErrStatus, [0]⟩ =
      some (.error .InvalidTransactionStatus) := by
  refine ⟨?_, ?_, by decide⟩
  · intro hf
    refine ⟨?_, ?_, ?_⟩
    · simp [RawControlMessage.into_result, hf]
    · simp [RawControlMessage.into_result, hf]
    · intro hne
      simp [RawControlMessage.into_result, hf, hne]
  · intro hv
    refine ⟨?_, ?_, ?_⟩
    · simp [RawControlMessage.into_result, hv]
    · simp [RawControlMessage.into_result, hv]
    · intro hne
      simp [RawControlMessage.into_result, hv, hne]

/-- Claim C10 witness: the byte 0xFF is never valid UTF-8, so an `ErrNoFile`
reply with body `[255]` panics; `[48]` (`"0"`) is valid UTF-8 and an
`ErrStatus` reply with that body yields `InvalidFileStatus`. -/
theorem into_result_classification_witness :
    RawControlMessage.into_result ⟨.ErrNoFile, [255]⟩ = none ∧
    RawControlMessage.into_result ⟨.ErrStatus, [48]⟩ =
      some (.error (.InvalidFileStatus [48])) :=
  ⟨((into_result_classification [255]).1 (by decide)).1,
   ((into_result_classification [48]).2.1 (by decide)).2.2 (by decide)⟩


lemma crcRound_lt {c : Nat} (h : c < 2 ^ 16) : crcRound c < 2 ^ 16 := by
  unfold crcRound
  split
  · exact Nat.xor_lt_two_pow (by rw [Nat.shiftRight_eq_div_pow]; omega) (by norm_num)
  · rw [Nat.shiftRight_eq_div_pow]
    omega

lemma crcIter_lt (n : Nat) : ∀ c : Nat, c < 2 ^ 16 → crcRound^[n] c < 2 ^ 16 := by
  induction n with
  | zero => intro c h; simpa using h
  | succ k ih =>
    intro c h
    rw [Function.iterate_succ_apply]
    exact ih _ (crcRound_lt h)

lemma crc16_arc_lt (data : List Nat) : crc16_arc data < 2 ^ 16 := by
  suffices h : ∀ (l : List Nat) (c : Nat), c < 2 ^ 16 →
      List.foldl (fun crc b => crcByte (crc ^^^ b % 256)) c l < 2 ^ 16 by
    exact h data 0 (by norm_num)
  intro l
  induction l with
  | nil => intro c h; simpa using h
  | cons b r ih =>
    intro c h
    simp only [List.foldl_cons]
    apply ih
    apply crcIter_lt
    exact Nat.xor_lt_two_pow h
      (lt_of_lt_of_le (Nat.mod_lt _ (by norm_num)) (by norm_num))

lemma crc_be_recompose {c : Nat} (h : c < 2 ^ 16) :
    ((c >>> 8) % 256) <<< 8 ||| c % 256 = c := by
  apply Nat.eq_of_testBit_eq
  intro i
  rw [Nat.testBit_lor, Nat.testBit_shiftLeft]
  have h256 : (256 : Nat) = 2 ^ 8 := by norm_num
  rcases Nat.lt_or_ge i 8 with hi | hi
  · have hd : decide (i ≥ 8) = false := by simp; omega
    rw [hd]
    simp only [Bool.false_and, Bool.false_or]
    rw [h256, Nat.testBit_mod_two_pow]
    simp [hi]
  · have hd : decide (i ≥ 8) = true := by simp [hi]
    rw [hd, h256, Nat.testBit_mod_two_pow, Nat.testBit_mod_two_pow, Nat.testBit_shiftRight]
    rcases Nat.lt_or_ge (i - 8) 8 with hj | hj
    · have he : 8 + (i - 8) = i := by omega
      simp [hj, he, show ¬ i < 8 by omega]
    · have hc : c.testBit i = false :=
        Nat.testBit_lt_two_pow
          (lt_of_lt_of_le h (Nat.pow_le_pow_right (by norm_num) (by omega)))
      simp [hj, hc, show ¬ i < 8 by omega]

lemma getD_shift3 (x y z : Nat) (l : List Nat) (n : Nat) :
    (x :: y :: z :: l).getD (n + 3) 0 = l.getD n 0 := by
  rw [show n + 3 = (n + 2) + 1 by omega, List.getD_cons_succ,
      show n + 2 = (n + 1) + 1 by omega, List.getD_cons_succ, List.getD_cons_succ]

lemma getD_append_len (l r : List Nat) (i : Nat) :
    (l ++ r).getD (l.length + i) 0 = r.getD i 0 := by
  induction l with
  | nil => simp
  | cons a t ih =>
    rw [List.cons_append, List.length_cons,
        show t.length + 1 + i = (t.length + i) + 1 by omega, List.getD_cons_succ]
    exact ih

lemma parse_frame_aux (st s : Nat) (d : List Nat)
    (hst : data_len st = .ok d.length) :
    YModemPacket.parse (st :: s :: (s ^^^ 0xff) ::
        (d ++ [(crc16_arc d >>> 8) % 256, crc16_arc d % 256])) = .ok ⟨s, d⟩ := by
  have hCl := crc16_arc_lt d
  have hrec := crc_be_recompose hCl
  have hxor : (s ^^^ 0xff) ^^^ 0xff = s := by
    rw [Nat.xor_assoc, Nat.xor_self, Nat.xor_zero]
  have hlen : (st :: s :: (s ^^^ 0xff) ::
      (d ++ [(crc16_arc d >>> 8) % 256, crc16_arc d % 256])).length = d.length + 5 := by
    simp
  have g0 : (st :: s :: (s ^^^ 0xff) ::
      (d ++ [(crc16_arc d >>> 8) % 256, crc16_arc d % 256])).getD 0 0 = st := by simp
  have g1 : (st :: s :: (s ^^^ 0xff) ::
      (d ++ [(crc16_arc d >>> 8) % 256, crc16_arc d % 256])).getD 1 0 = s := by simp
  have g2 : (st :: s :: (s ^^^ 0xff) ::
      (d ++ [(crc16_arc d >>> 8) % 256, crc16_arc d % 256])).getD 2 0 = s ^^^ 0xff := by simp
  have hdata : ((st :: s :: (s ^^^ 0xff) ::
      (d ++ [(crc16_arc d >>> 8) % 256, crc16_arc d % 256])).drop 3).take
        (d.length + 5 - 2 - 3) = d := by
    rw [show d.length + 5 - 2 - 3 = d.length by omega]
    rw [show (st :: s :: (s ^^^ 0xff) ::
        (d ++ [(crc16_arc d >>> 8) % 256, crc16_arc d % 256])).drop 3
        = d ++ [(crc16_arc d >>> 8) % 256, crc16_arc d % 256] from rfl]
    exact List.take_left d _
  have hgethi : (st :: s :: (s ^^^ 0xff) ::
      (d ++ [(crc16_arc d >>> 8) % 256, crc16_arc d % 256])).getD (d.length + 5 - 2) 0
      = (crc16_arc d >>> 8) % 256 := by
    rw [show d.length + 5 - 2 = d.length + 3 by omega, getD_shift3,
        show d.length = d.length + 0 by omega, getD_append_len]
    simp
  have hgetlo : (st :: s :: (s ^^^ 0xff) ::
      (d ++ [(crc16_arc d >>> 8) % 256, crc16_arc d % 256])).getD (d.length + 5 - 1) 0
      = crc16_arc d % 256 := by
    rw [show d.length + 5 - 1 = (d.length + 1) + 3 by omega, getD_shift3, getD_append_len]
    simp
  unfold YModemPacket.parse
  simp only [hlen, g0, hst, g1, g2, hdata, hgethi, hgetlo]
  rw [if_neg (by omega), if_neg (by omega), if_neg (by simp [hxor]),
      if_neg (by simp [hrec])]

lemma serialize_eq (p : YModemPacket)
    (hd : p.data.length = SMALL_DATA_SIZE ∨ p.data.length = LARGE_DATA_SIZE) :
    p.serialize = some (serializeFrame p.seq p.data) := by
  rcases hd with h | h
  · rw [YModemPacket.serialize, YModemPacket.start_byte, if_pos h, serializeFrame, if_pos h]
    rfl
  · have h128 : ¬ p.data.length = SMALL_DATA_SIZE := by rw [h]; decide
    rw [YModemPacket.serialize, YModemPacket.start_byte, if_neg h128, if_pos h,
        serializeFrame, if_neg h128]
    rfl

lemma parse_serializeFrame (s : Nat) (d : List Nat)
    (hd : d.length = SMALL_DATA_SIZE ∨ d.length = LARGE_DATA_SIZE) :
    YModemPacket.parse (serializeFrame s d) = .ok ⟨s, d⟩ := by
  rcases hd with h | h
  · rw [serializeFrame, if_pos h]
    refine parse_frame_aux SOH s d ?_
    rw [h]
    rfl
  · have h128 : ¬ d.length = SMALL_DATA_SIZE := by rw [h]; decide
    rw [serializeFrame, if_neg h128]
    refine parse_frame_aux STX s d ?_
    rw [h]
    rfl

/-- Claim C1: for every sequence byte `s` and data of length exactly 128 or
1024, parsing the serialization of `YModemPacket{seq: s, data: d}` returns
the same packet; the frame is `start ∥ s ∥ s^0xff ∥ d ∥ crc_hi ∥ crc_lo`
with the two CRC bytes the big-endian CRC-16/ARC of `d`, and the frame is
133 bytes starting with SOH for 128-byte data and 1029 bytes starting with
STX for 1024-byte data. -/
theorem ymodem_packet_roundtrip (s : Nat) (d : List Nat) (_hs : s < 256)
    (hd : d.length = SMALL_DATA_SIZE ∨ d.length = LARGE_DATA_SIZE)
    (_hb : ∀ b ∈ d, b < 256) :
    ∃ st frame, YModemPacket.serialize ⟨s, d⟩ = some frame ∧
      YModemPacket.parse frame = .ok ⟨s, d⟩ ∧
      frame = st :: s :: (s ^^^ 0xff) ::
        (d ++ [crc16_arc d / 256, crc16_arc d % 256]) ∧
      frame.length = d.length + 5 ∧
      (d.length = SMALL_DATA_SIZE → st = SOH ∧ frame.length = 133) ∧
      (d.length = LARGE_DATA_SIZE → st = STX ∧ frame.length = 1029) := by
  have hCl := crc16_arc_lt d
  have hhi : (crc16_arc d >>> 8) % 256 = crc16_arc d / 256 := by
    have hdiv : crc16_arc d >>> 8 = crc16_arc d / 256 := by
      rw [Nat.shiftRight_eq_div_pow]
    rw [hdiv]
    exact Nat.mod_eq_of_lt (by omega)
  refine ⟨if d.length = SMALL_DATA_SIZE then SOH else STX, serializeFrame s d,
    serialize_eq ⟨s, d⟩ hd, parse_serializeFrame s d hd, ?_, ?_, ?_, ?_⟩
  · rw [serializeFrame, hhi]
  · rcases hd with h | h <;> simp [serializeFrame, h]
  · intro h
    exact ⟨by rw [if_pos h], by simp [serializeFrame, h, SMALL_DATA_SIZE]⟩
  · intro h
    have h128 : ¬ d.length = SMALL_DATA_SIZE := by rw [h]; decide
    exact ⟨by rw [if_neg h128], by simp [serializeFrame, h, h128, LARGE_DATA_SIZE]⟩

/-- Claim C1 witness: a concrete 128-byte packet round-trips. -/
theorem ymodem_packet_roundtrip_witness :
    ∃ st frame, YModemPacket.serialize ⟨7, List.replicate 128 3⟩ = some frame ∧
      YModemPacket.parse frame = .ok ⟨7, List.replicate 128 3⟩ ∧
      frame = st :: 7 :: (7 ^^^ 0xff) :: (List.replicate 128 3 ++
        [crc16_arc (List.replicate 128 3) / 256, crc16_arc (List.replicate 128 3) % 256]) ∧
      frame.length = (List.replicate 128 3).length + 5 ∧
      ((List.replicate 128 3).length = SMALL_DATA_SIZE → st = SOH ∧ frame.length = 133) ∧
      ((List.replicate 128 3).length = LARGE_DATA_SIZE → st = STX ∧ frame.length = 1029) :=
  ymodem_packet_roundtrip 7 (List.replicate 128 3) (by decide)
    (Or.inl (by simp [SMALL_DATA_SIZE]))
    (by
      intro b hb
      rw [List.eq_of_mem_replicate hb]
      decide)

/-- Claim C2 (amended): in the data-packet loop of `receive_file`, while
data is still expected, a packet whose sequence number differs from the
expected `(seq + 1) mod 256` aborts the whole transfer (`none`, no
retransmission), as does any packet that fails `YModemPacket::parse` (bad
start byte, bad length, `seq ⊕ seq_inv ≠ 0xFF`, or bad CRC); an accepted
packet yields exactly `min(packet data length, remaining)` bytes and
decrements the remaining count by that amount; and a well-formed sender's
frames (consecutive sequence numbers, valid CRCs) deliver exactly the first
`size` bytes of the concatenated chunk data.  The start byte is checked only
per packet (SOH/STX fixes that packet's own data length); there is no check
against a transfer-level data size. -/
theorem receive_loop_behavior :
    (∀ (lenLeft seq : Nat) (f : List Nat) (fs : List (List Nat)) (pkt : YModemPacket),
      0 < lenLeft → YModemPacket.parse f = .ok pkt → pkt.seq ≠ (seq + 1) % 256 →
      receive_loop lenLeft seq (f :: fs) = none) ∧
    (∀ (lenLeft seq : Nat) (f : List Nat) (fs : List (List Nat)) (e : YmError),
      0 < lenLeft → YModemPacket.parse f = .error e →
      receive_loop lenLeft seq (f :: fs) = none) ∧
    (∀ (lenLeft seq : Nat) (f : List Nat) (fs : List (List Nat)) (pkt : YModemPacket),
      0 < lenLeft → YModemPacket.parse f = .ok pkt → pkt.seq = (seq + 1) % 256 →
      receive_loop lenLeft seq (f :: fs) =
        (receive_loop (lenLeft - min lenLeft pkt.data.length) ((seq + 1) % 256) fs).map
          (fun out => pkt.data.take (min lenLeft pkt.data.length) :: out)) ∧
    (∀ (chunks : List (List Nat)) (lenLeft seq : Nat),
      (∀ c ∈ chunks, c.length = SMALL_DATA_SIZE ∨ c.length = LARGE_DATA_SIZE) →
      lenLeft ≤ chunks.flatten.length →
      ∃ out, receive_loop lenLeft seq (mkFrames seq chunks) = some out ∧
        out.flatten = chunks.flatten.take lenLeft) := by
  refine ⟨?_, ?_, ?_, ?_⟩
  · intro lenLeft seq f fs pkt h0 hp hne
    have h0' : ¬ lenLeft = 0 := by omega
    simp [receive_loop, h0', hp, hne]
  · intro lenLeft seq f fs e h0 hp
    have h0' : ¬ lenLeft = 0 := by omega
    simp [receive_loop, h0', hp]
  · intro lenLeft seq f fs pkt h0 hp hq
    have h0' : ¬ lenLeft = 0 := by omega
    simp [receive_loop, h0', hp, hq]
  · intro chunks
    induction chunks with
    | nil =>
      intro lenLeft seq houter hle
      simp at hle
      subst hle
      exact ⟨[], by simp [mkFrames, receive_loop], by simp⟩
    | cons c cs ih =>
      intro lenLeft seq houter hle
      by_cases h0 : lenLeft = 0
      · subst h0
        exact ⟨[], by simp [mkFrames, receive_loop], by simp⟩
      · have hc : c.length = SMALL_DATA_SIZE ∨ c.length = LARGE_DATA_SIZE :=
          houter c (by simp)
        have hp := parse_serializeFrame ((seq + 1) % 256) c hc
        have hcs : ∀ x ∈ cs, x.length = SMALL_DATA_SIZE ∨ x.length = LARGE_DATA_SIZE := by
          intro x hx
          exact houter x (by simp [hx])
        have hle' : lenLeft ≤ c.length + cs.flatten.length := by
          simpa using hle
        have hle2 : lenLeft - min lenLeft c.length ≤ cs.flatten.length := by
          omega
        obtain ⟨out, hout, hjoin⟩ := ih (lenLeft - min lenLeft c.length) ((seq + 1) % 256) hcs hle2
        refine ⟨c.take (min lenLeft c.length) :: out, ?_, ?_⟩
        · simp [mkFrames, receive_loop, h0, hp, hout]
        · rcases le_or_lt c.length lenLeft with hcase | hcase
          · have hdl : min lenLeft c.length = c.length := by omega
            simp only [List.flatten_cons, hdl, hjoin]
            rw [List.take_append_eq_append_take, List.take_length,
                List.take_of_length_le hcase]
          · have hdl : min lenLeft c.length = lenLeft := by omega
            simp only [List.flatten_cons, hdl, hjoin]
            rw [List.take_append_eq_append_take,
                show lenLeft - c.length = 0 by omega,
                show lenLeft - lenLeft = 0 by omega]

lemma receive_two (d1 d2 : List Nat)
    (h1 : d1.length = LARGE_DATA_SIZE) (h2 : d2.length = SMALL_DATA_SIZE) :
    receive_loop 1100 0 [serializeFrame 1 d1, serializeFrame 2 d2] =
      some [d1.take 1024, d2.take 76] := by
  have hp1 := parse_serializeFrame 1 d1 (Or.inr h1)
  have hp2 := parse_serializeFrame 2 d2 (Or.inl h2)
  have h1' : d1.length = 1024 := h1
  have h2' : d2.length = 128 := h2
  simp only [receive_loop, hp1, hp2]
  norm_num [h1', h2']

/-- Claim C2 counterexample: the claim says each data packet's start byte
"is verified to match the data size declared for the transfer", implying a
transfer mixing 1024-byte (STX) and 128-byte (SOH) packets is rejected.  The
code accepts such a transfer: a 1100-byte transfer served by one STX packet
followed by one SOH packet succeeds and yields all 1100 bytes. -/
theorem receive_loop_mixed_sizes_accepted :
    receive_loop 1100 0
      [serializeFrame 1 (List.replicate 1024 0), serializeFrame 2 (List.replicate 128 0)] =
    some [List.replicate 1024 0, List.replicate 76 0] := by
  rw [receive_two (List.replicate 1024 0) (List.replicate 128 0)
      (List.length_replicate _ _) (List.length_replicate _ _)]
  rw [List.take_replicate, List.take_replicate,
      show min 1024 1024 = 1024 by omega, show min 76 128 = 76 by omega]

/-- Claim C2 witness: a single well-formed 128-byte packet delivers the
first 50 requested bytes. -/
theorem receive_loop_behavior_witness :
    ∃ out, receive_loop 50 0 (mkFrames 0 [List.replicate 128 0]) = some out ∧
      out.flatten = ([List.replicate 128 0] : List (List Nat)).flatten.take 50 :=
  receive_loop_behavior.2.2.2 [List.replicate 128 0] 50 0
    (by
      intro c hc
      simp at hc
      subst hc
      exact Or.inl (by simp [SMALL_DATA_SIZE]))
    (by simp)

lemma send_chunks_nil_spec (pds seq : Nat) (hp : 0 < pds) (fuel : Nat) :
    (send_chunks fuel pds seq []).length = (([] : List Nat).length + pds - 1) / pds ∧
    (∀ p ∈ send_chunks fuel pds seq [], (p.2).length = pds) ∧
    ([] : List Nat).length ≤ pds * (send_chunks fuel pds seq []).length ∧
    ((send_chunks fuel pds seq []).map (fun p => p.2)).flatten =
      ([] : List Nat) ++ List.replicate (pds * (send_chunks fuel pds seq []).length -
        ([] : List Nat).length) 0 := by
  have hnil : send_chunks fuel pds seq [] = [] := by
    cases fuel <;> rfl
  rw [hnil]
  refine ⟨?_, by simp, by simp, by simp⟩
  simp only [List.length_nil]
  rw [Nat.div_eq_of_lt (by omega)]

lemma send_chunks_spec (pds : Nat) (hp : 0 < pds) :
    ∀ (fuel : Nat) (l : List Nat) (seq : Nat), l.length ≤ fuel →
      (send_chunks fuel pds seq l).length = (l.length + pds - 1) / pds ∧
      (∀ p ∈ send_chunks fuel pds seq l, (p.2).length = pds) ∧
      l.length ≤ pds * (send_chunks fuel pds seq l).length ∧
      ((send_chunks fuel pds seq l).map (fun p => p.2)).flatten =
        l ++ List.replicate (pds * (send_chunks fuel pds seq l).length - l.length) 0 := by
  intro fuel
  induction fuel with
  | zero =>
    intro l seq hl
    have he : l = [] := List.eq_nil_of_length_eq_zero (by omega)
    subst he
    exact send_chunks_nil_spec pds seq hp 0
  | succ k ih =>
    intro l seq hl
    cases l with
    | nil => exact send_chunks_nil_spec pds seq hp (k + 1)
    | cons b r =>
      have hl' : r.length + 1 ≤ k + 1 := by simpa using hl
      have hfl : ((b :: r).drop (min (b :: r).length pds)).length ≤ k := by
        rw [List.length_drop]
        simp only [List.length_cons]
        omega
      obtain ⟨ihlen, ihall, ihbound, ihflat⟩ :=
        ih ((b :: r).drop (min (b :: r).length pds)) ((seq + 1) % 256) hfl
      rw [List.length_drop] at ihlen ihbound ihflat
      simp only [List.length_cons] at ihlen ihbound ihflat
      refine ⟨?_, ?_, ?_, ?_⟩
      · simp only [send_chunks, List.length_cons, ihlen]
        rcases le_or_lt (r.length + 1) pds with hcase | hcase
        · have hdl : min (r.length + 1) pds = r.length + 1 := by omega
          rw [hdl, Nat.sub_self, Nat.div_eq_of_lt (by omega)]
          have hdiv : (r.length + 1 + pds - 1) / pds = 1 := by
            rw [show r.length + 1 + pds - 1 = r.length + pds by omega,
                Nat.add_div_right _ hp, Nat.div_eq_of_lt (by omega)]
          rw [hdiv]
        · have hdl : min (r.length + 1) pds = pds := by omega
          rw [hdl, show r.length + 1 - pds + pds - 1 = r.length by omega]
          have hdiv : (r.length + 1 + pds - 1) / pds = r.length / pds + 1 := by
            rw [show r.length + 1 + pds - 1 = r.length + pds by omega,
                Nat.add_div_right _ hp]
          rw [hdiv]
      · intro p hpmem
        simp only [send_chunks, List.mem_cons] at hpmem
        rcases hpmem with hfst | hrest
        · subst hfst
          simp only [List.length_append, List.length_take, List.length_replicate,
            List.length_cons]
          omega
        · exact ihall p hrest
      · simp only [send_chunks, List.length_cons]
        have hring : pds * ((send_chunks k pds ((seq + 1) % 256)
            ((b :: r).drop (min (b :: r).length pds))).length + 1) =
            pds * (send_chunks k pds ((seq + 1) % 256)
              ((b :: r).drop (min (b :: r).length pds))).length + pds := by ring
        simp only [List.length_cons] at hring ⊢
        rw [hring]
        omega
      · simp only [send_chunks, List.map_cons, List.flatten_cons, List.length_cons, ihflat]
        rcases le_or_lt (r.length + 1) pds with hcase | hcase
        · have hdl : min (r.length + 1) pds = r.length + 1 := by omega
          have hc0 : (send_chunks k pds ((seq + 1) % 256)
              ((b :: r).drop (min (r.length + 1) pds))).length = 0 := by
            rw [ihlen, hdl, Nat.sub_self, Nat.div_eq_of_lt (by omega)]
          rw [hdl] at hc0 ⊢
          rw [hc0]
          rw [List.take_of_length_le (by simp), List.drop_eq_nil_of_le (by simp)]
          simp only [Nat.mul_zero, Nat.sub_self, Nat.zero_sub, List.replicate_zero,
            List.nil_append, List.append_nil]
          rw [show pds * (0 + 1) = pds by ring]
        · have hdl : min (r.length + 1) pds = pds := by omega
          rw [hdl, Nat.sub_self, List.replicate_zero, List.append_nil,
              ← List.append_assoc, List.take_append_drop]
          have hring : pds * ((send_chunks k pds ((seq + 1) % 256)
              ((b :: r).drop pds)).length + 1) =
              pds * (send_chunks k pds ((seq + 1) % 256)
                ((b :: r).drop pds)).length + pds := by ring
          rw [hdl] at ihbound
          congr 2
          omega

/-- Claim C4: `send_file` builds the header payload `filename SPACE
decimal-size` zero-padded to 128 bytes and fails (before any packet is
sent) exactly when that payload exceeds 128 bytes; it uses 128-byte data
packets when the file size is strictly below 1024 and 1024-byte data packets
otherwise; the file is sent in `ceil(size / data_size)` data packets, each
zero-padded to the full data size, whose data concatenation is the file
followed by zero padding. -/
theorem send_file_plan_spec (filename : List Nat) (file : List Nat) :
    (SMALL_DATA_SIZE < (filename ++ 32 :: decimalBytes file.length).length →
      send_file_plan filename file = none) ∧
    ((filename ++ 32 :: decimalBytes file.length).length ≤ SMALL_DATA_SIZE →
      ∃ packets,
        send_file_plan filename file =
          some ((filename ++ 32 :: decimalBytes file.length) ++
            List.replicate (SMALL_DATA_SIZE -
              (filename ++ 32 :: decimalBytes file.length).length) 0,
            packets) ∧
        packets.length =
          (file.length +
            (if file.length < LARGE_DATA_SIZE then SMALL_DATA_SIZE else LARGE_DATA_SIZE) - 1) /
            (if file.length < LARGE_DATA_SIZE then SMALL_DATA_SIZE else LARGE_DATA_SIZE) ∧
        (∀ p ∈ packets, (p.2).length =
          (if file.length < LARGE_DATA_SIZE then SMALL_DATA_SIZE else LARGE_DATA_SIZE)) ∧
        (packets.map (fun p => p.2)).flatten =
          file ++ List.replicate
            ((if file.length < LARGE_DATA_SIZE then SMALL_DATA_SIZE else LARGE_DATA_SIZE) *
              packets.length - file.length) 0) := by
  have hp : 0 < (if file.length < LARGE_DATA_SIZE then SMALL_DATA_SIZE else LARGE_DATA_SIZE) := by
    split <;> norm_num [SMALL_DATA_SIZE, LARGE_DATA_SIZE]
  constructor
  · intro hgt
    simp only [send_file_plan]
    rw [if_pos hgt]
  · intro hle
    obtain ⟨h1, h2, h3, h4⟩ := send_chunks_spec _ hp file.length file 0 le_rfl
    refine ⟨send_chunks file.length
      (if file.length < LARGE_DATA_SIZE then SMALL_DATA_SIZE else LARGE_DATA_SIZE) 0 file,
      ?_, h1, h2, h4⟩
    simp only [send_file_plan]
    rw [if_neg (by omega)]

/-- Claim C4 witness: a 3,000-byte file named `"x.gnss"` is planned as a
header containing `"x.gnss 3000"` and three 1024-byte (STX-sized) data
packets (1024 + 1024 + 952 zero-padded to 1024). -/
theorem send_file_plan_spec_witness :
    ∃ packets,
      send_file_plan [120, 46, 103, 110, 115, 115] (List.replicate 3000 0) =
        some (([120, 46, 103, 110, 115, 115] ++
            32 :: decimalBytes (List.replicate 3000 (0 : Nat)).length) ++
          List.replicate (SMALL_DATA_SIZE - ([120, 46, 103, 110, 115, 115] ++
            32 :: decimalBytes (List.replicate 3000 (0 : Nat)).length).length) 0,
          packets) ∧
      packets.length = 3 ∧
      (∀ p ∈ packets, (p.2).length = 1024) ∧
      decimalBytes (List.replicate 3000 (0 : Nat)).length = [51, 48, 48, 48] := by
  obtain ⟨packets, hplan, hlen, hall, hflat⟩ :=
    (send_file_plan_spec [120, 46, 103, 110, 115, 115] (List.replicate 3000 0)).2
      (by simp only [List.length_replicate]; decide)
  refine ⟨packets, hplan, ?_, ?_, by simp only [List.length_replicate]; decide⟩
  · rw [hlen]
    simp only [List.length_replicate, LARGE_DATA_SIZE, SMALL_DATA_SIZE]
    norm_num
  · intro p hp2
    have hpl := hall p hp2
    rw [hpl]
    simp only [List.length_replicate, LARGE_DATA_SIZE, SMALL_DATA_SIZE]
    norm_num

lemma utf8Step_ascii (b : Nat) (r : List Nat) (hb : b ≤ 0x7F) :
    utf8Step (b :: r) = some r := by
  rcases r with _ | ⟨c1, _ | ⟨c2, _ | ⟨c3, rr⟩⟩⟩ <;> simp [utf8Step, hb]

lemma utf8ValidGo_ascii : ∀ (fuel : Nat) (l : List Nat), l.length ≤ fuel →
    (∀ b ∈ l, b < 128) → utf8ValidGo fuel l = true := by
  intro fuel
  induction fuel with
  | zero =>
    intro l hl _
    have he : l = [] := List.eq_nil_of_length_eq_zero (by omega)
    subst he
    rfl
  | succ f ih =>
    intro l hl hall
    cases l with
    | nil => rfl
    | cons b r =>
      have hb : b ≤ 0x7F := by
        have := hall b (by simp)
        omega
      simp only [utf8ValidGo, utf8Step_ascii b r hb]
      refine ih r ?_ (fun x hx => hall x (by simp [hx]))
      simp only [List.length_cons] at hl
      omega

lemma utf8Valid_of_ascii (l : List Nat) (h : ∀ b ∈ l, b < 128) : utf8Valid l = true :=
  utf8ValidGo_ascii l.length l le_rfl h

lemma split_once_eq (sep : Nat) :
    ∀ (l a b : List Nat), split_once sep l = some (a, b) →
      l = a ++ sep :: b ∧ sep ∉ a := by
  intro l
  induction l with
  | nil => intro a b h; exact Option.noConfusion h
  | cons x r ih =>
    intro a b h
    simp only [split_once] at h
    by_cases hx : x = sep
    · rw [if_pos hx] at h
      simp only [Option.some.injEq, Prod.mk.injEq] at h
      obtain ⟨ha, hb⟩ := h
      subst ha
      subst hb
      subst hx
      simp
    · rw [if_neg hx] at h
      cases hsp : split_once sep r with
      | none => rw [hsp] at h; simp at h
      | some p =>
        obtain ⟨a2, b2⟩ := p
        rw [hsp] at h
        simp only [Option.map, Option.some.injEq, Prod.mk.injEq] at h
        obtain ⟨ha, hb⟩ := h
        obtain ⟨hr, hnotin⟩ := ih a2 b2 hsp
        subst ha
        subst hb
        subst hr
        constructor
        · simp
        · simp only [List.mem_cons, not_or]
          exact ⟨fun he => hx he.symm, hnotin⟩

lemma split_once_append (sep : Nat) :
    ∀ (a : List Nat), sep ∉ a → ∀ (b : List Nat),
      split_once sep (a ++ sep :: b) = some (a, b) := by
  intro a
  induction a with
  | nil =>
    intro _ b
    rw [List.nil_append]
    simp [split_once]
  | cons x t ih =>
    intro hna b
    have hx : ¬ x = sep := by
      intro he
      exact hna (by simp [he])
    have ht : sep ∉ t := fun hm => hna (by simp [hm])
    simp only [List.cons_append, split_once, List.append_eq]
    rw [if_neg hx, ih ht b]
    rfl

lemma digitsGo_bytes (bound : Nat) :
    ∀ (ds : List Nat) (acc v : Nat), digitsGo bound acc ds = some v →
      ∀ b ∈ ds, 48 ≤ b ∧ b ≤ 57 := by
  intro ds
  induction ds with
  | nil => intro acc v _ b hb; simp at hb
  | cons d r ih =>
    intro acc v h b hb
    simp only [digitsGo] at h
    by_cases hd : (48 ≤ d && d ≤ 57) = true
    · rw [if_pos hd] at h
      simp only [Bool.and_eq_true, decide_eq_true_eq] at hd
      rcases List.mem_cons.mp hb with hb1 | hb2
      · subst hb1
        exact hd
      · by_cases hlt : acc * 10 + (d - 48) < bound
        · rw [if_pos hlt] at h
          exact ih _ v h b hb2
        · rw [if_neg hlt] at h
          simp at h
    · rw [if_neg hd] at h
      simp at h

lemma u32_parse_bytes (l : List Nat) (v : Nat) (h : u32_parse l = some v) :
    ∀ b ∈ l, b < 128 ∧ b ≠ 47 := by
  cases l with
  | nil => simp [u32_parse, from_str_radix_u] at h
  | cons b0 r =>
    simp only [u32_parse, from_str_radix_u] at h
    by_cases hb0 : b0 = 43
    · rw [if_pos hb0] at h
      cases r with
      | nil => simp at h
      | cons c cr =>
        have hdig := digitsGo_bytes (2 ^ 32) (c :: cr) 0 v h
        intro b hb
        rcases List.mem_cons.mp hb with hb1 | hb2
        · subst hb1
          omega
        · have := hdig b hb2
          omega
    · rw [if_neg hb0] at h
      have hdig := digitsGo_bytes (2 ^ 32) (b0 :: r) 0 v h
      intro b hb
      have := hdig b hb
      omega

/-- Claim C8 (amended): the request frame for `RequestCap` with empty body is
the two bytes `09 09`; and for a `ReturnCap` reply, `get_memory_capacity`
returns `some cap` exactly when the body splits at its first `'/'` (byte 47)
into two parts each accepted by Rust `str::parse::<u32>` (an optional `'+'`
followed by ASCII digits, value below `2^32`), with `free_kb` the first
value and `total_kb` the second. -/
theorem get_memory_capacity_spec :
    RawControlMessage.write ⟨.RequestCap, []⟩ 20 = some [9, 9] ∧
    (∀ (body : List Nat) (cap : MemoryCapacity),
      get_memory_capacity ⟨.ReturnCap, body⟩ = some cap ↔
      ∃ l r, body = l ++ 47 :: r ∧ u32_parse l = some cap.free_kb ∧
        u32_parse r = some cap.total_kb) := by
  refine ⟨by decide, ?_⟩
  intro body cap
  have hexp : expect_ok ⟨.ReturnCap, body⟩ .ReturnCap = some body := rfl
  constructor
  · intro h
    simp only [get_memory_capacity, hexp] at h
    split at h
    · split at h
      · simp at h
      · rename_i l r hsp
        split at h
        · simp at h
        · rename_i free hl
          split at h
          · simp at h
          · rename_i total hr
            simp only [Option.some.injEq] at h
            obtain ⟨hbody, _⟩ := split_once_eq 47 body l r hsp
            subst h
            exact ⟨l, r, hbody, hl, hr⟩
    · simp at h
  · rintro ⟨l, r, rfl, hl, hr⟩
    have hlb := u32_parse_bytes l _ hl
    have hrb := u32_parse_bytes r _ hr
    have hna : 47 ∉ l := fun hmem => (hlb 47 hmem).2 rfl
    have hsp := split_once_append 47 l hna r
    have hutf : utf8Valid (l ++ 47 :: r) = true := by
      apply utf8Valid_of_ascii
      intro b hb
      rcases List.mem_append.mp hb with hb1 | hb2
      · exact (hlb b hb1).1
      · rcases List.mem_cons.mp hb2 with hb3 | hb4
        · omega
        · exact (hrb b hb4).1
    have hexp2 : expect_ok ⟨.ReturnCap, l ++ 47 :: r⟩ .ReturnCap = some (l ++ 47 :: r) := rfl
    simp only [get_memory_capacity, hexp2, hutf, if_true, hsp, hl, hr]

/-- Claim C8 witness: the reply body `"1234/1024"` yields
`MemoryCapacity{free_kb: 1234, total_kb: 1024}`. -/
theorem get_memory_capacity_spec_witness :
    get_memory_capacity ⟨.ReturnCap, [49, 50, 51, 52, 47, 49, 48, 50, 52]⟩ =
      some ⟨1234, 1024⟩ :=
  (get_memory_capacity_spec.2 [49, 50, 51, 52, 47, 49, 48, 50, 52] ⟨1234, 1024⟩).mpr
    ⟨[49, 50, 51, 52], [49, 48, 50, 52], by decide, by decide, by decide⟩

/-- Claim C8 counterexample: the body `"+1/2"` is not of the claimed shape
(its first character is `'+'`, not a digit), yet `get_memory_capacity`
succeeds on it with `free_kb = 1`, `total_kb = 2`, because Rust's
`str::parse::<u32>` accepts an optional leading `'+'`.  This refutes the
claim's "a body not of this shape makes the operation fail". -/
theorem get_memory_capacity_plus_sign :
    capBodySpecShape [43, 49, 47, 50] = false ∧
    get_memory_capacity ⟨.ReturnCap, [43, 49, 47, 50]⟩ = some ⟨1, 2⟩ := by
  decide

lemma digitsGo_some (bound : Nat) :
    ∀ (ds : List Nat) (acc : Nat), (∀ b ∈ ds, 48 ≤ b ∧ b ≤ 57) →
      (acc + 1) * 10 ^ ds.length ≤ bound → ∃ v, digitsGo bound acc ds = some v := by
  intro ds
  induction ds with
  | nil => intro acc _ _; exact ⟨acc, rfl⟩
  | cons d r ih =>
    intro acc hds hbound
    obtain ⟨hd1, hd2⟩ := hds d (by simp)
    simp only [List.length_cons] at hbound
    have hpow : (10 : Nat) ≤ 10 ^ (r.length + 1) := by
      calc (10 : Nat) = 10 ^ 1 := by norm_num
      _ ≤ 10 ^ (r.length + 1) := Nat.pow_le_pow_right (by norm_num) (by omega)
    have hy : (acc + 1) * 10 ≤ (acc + 1) * 10 ^ (r.length + 1) :=
      Nat.mul_le_mul_left _ hpow
    have hstep : acc * 10 + (d - 48) < bound := by
      calc acc * 10 + (d - 48) < (acc + 1) * 10 := by omega
      _ ≤ (acc + 1) * 10 ^ (r.length + 1) := hy
      _ ≤ bound := hbound
    have hih : (acc * 10 + (d - 48) + 1) * 10 ^ r.length ≤ bound := by
      calc (acc * 10 + (d - 48) + 1) * 10 ^ r.length
          ≤ ((acc + 1) * 10) * 10 ^ r.length := Nat.mul_le_mul_right _ (by omega)
      _ = (acc + 1) * 10 ^ (r.length + 1) := by ring
      _ ≤ bound := hbound
    obtain ⟨v, hv⟩ := ih (acc * 10 + (d - 48)) (fun b hb => hds b (by simp [hb])) hih
    refine ⟨v, ?_⟩
    simp only [digitsGo]
    rw [if_pos (by simp [hd1, hd2]), if_pos hstep, hv]

lemma u64_digits_some (ds : List Nat) (hne : ds ≠ []) (hds : ∀ b ∈ ds, 48 ≤ b ∧ b ≤ 57)
    (hlen : ds.length ≤ 19) :
    ∃ v, u64_from_str_radix ds = some v := by
  cases ds with
  | nil => exact absurd rfl hne
  | cons d r =>
    obtain ⟨hd1, hd2⟩ := hds d (by simp)
    have hplus : ¬ d = 43 := by omega
    have hbound : (0 + 1) * 10 ^ (d :: r).length ≤ 2 ^ 64 := by
      have h19 : (10 : Nat) ^ (d :: r).length ≤ 10 ^ 19 :=
        Nat.pow_le_pow_right (by norm_num) hlen
      calc (0 + 1) * 10 ^ (d :: r).length = 10 ^ (d :: r).length := by ring
      _ ≤ 10 ^ 19 := h19
      _ ≤ 2 ^ 64 := by norm_num
    obtain ⟨v, hv⟩ := digitsGo_some (2 ^ 64) (d :: r) 0 hds hbound
    refine ⟨v, ?_⟩
    simp only [u64_from_str_radix, from_str_radix_u]
    rw [if_neg hplus]
    exact hv

lemma headerFold_last :
    ∀ (ts : List (List Nat)) (name : List Nat) (size : Nat) (s : List Nat) (v : Nat),
      name ≠ [] →
      (∀ u ∈ ts, utf8Valid u = true ∧ (u64_from_str_radix u).isSome = true) →
      utf8Valid s = true → u64_from_str_radix s = some v →
      headerFold (name, size) (ts ++ [s]) = some (name, v) := by
  intro ts
  induction ts with
  | nil =>
    intro name size s v hn hts hu hv
    have hne : name.isEmpty = false := by
      simp [List.isEmpty_iff, hn]
    simp only [List.nil_append, headerFold, hu, hne, hv]
    rfl
  | cons u ts ih =>
    intro name size s v hn hts hu hv
    obtain ⟨huu, hup⟩ := hts u (by simp)
    obtain ⟨w, hw⟩ := Option.isSome_iff_exists.mp hup
    have hne : name.isEmpty = false := by
      simp [List.isEmpty_iff, hn]
    simp only [List.cons_append, headerFold, huu, hne, hw]
    simp only [if_true, Bool.false_eq_true, if_false]
    exact ih name w s v hn (fun x hx => hts x (by simp [hx])) hu hv

lemma headerTokens_mem_ne_nil (d : List Nat) : ∀ x ∈ headerTokens d, x ≠ [] := by
  intro x hx
  simp only [headerTokens, List.mem_filter] at hx
  intro he
  subst he
  simp at hx

lemma header_parse_last_token (d t : List Nat) (ts : List (List Nat)) (s : List Nat) (v : Nat)
    (htok : headerTokens d = t :: (ts ++ [s]))
    (hts : ∀ u ∈ ts, utf8Valid u = true ∧ (u64_from_str_radix u).isSome = true)
    (hut : utf8Valid t = true)
    (hus : utf8Valid s = true) (hv : u64_from_str_radix s = some v) :
    YModemHeader.parse d = some (t, v) := by
  have htne : t ≠ [] := headerTokens_mem_ne_nil d t (by rw [htok]; simp)
  rw [YModemHeader.parse, htok]
  simp only [headerFold, hut, List.isEmpty_nil, if_true]
  exact headerFold_last ts t 0 s v htne hts hus hv

lemma sliceSplit_sepfree_append (p : Nat → Bool) :
    ∀ (xs : List Nat), (∀ b ∈ xs, p b = false) →
      ∀ (r g : List Nat) (gs : List (List Nat)),
        sliceSplit p r = g :: gs → sliceSplit p (xs ++ r) = (xs ++ g) :: gs := by
  intro xs
  induction xs with
  | nil => intro _ r g gs h; simpa using h
  | cons x t ih =>
    intro hfree r g gs h
    have hx : p x = false := hfree x (by simp)
    have ihr := ih (fun b hb => hfree b (by simp [hb])) r g gs h
    simp only [List.cons_append, sliceSplit, hx, Bool.false_eq_true, if_false,
      List.append_eq, ihr]

lemma sliceSplit_sepfree (p : Nat → Bool) (l : List Nat) (h : ∀ b ∈ l, p b = false) :
    sliceSplit p l = [l] := by
  have h2 := sliceSplit_sepfree_append p l h [] [] [] rfl
  simpa using h2

lemma strip_nul_noop : ∀ (fuel : Nat) (x : List Nat), x.getLast? ≠ some 0 →
    strip_nul_suffix fuel x = x := by
  intro fuel
  cases fuel with
  | zero => intro x _; rfl
  | succ f =>
    intro x hx
    simp only [strip_nul_suffix]
    rw [if_neg hx]

lemma strip_nul_append_replicate :
    ∀ (k : Nat) (x : List Nat) (fuel : Nat), x.getLast? ≠ some 0 →
      x.length + k ≤ fuel →
      strip_nul_suffix fuel (x ++ List.replicate k 0) = x := by
  intro k
  induction k with
  | zero =>
    intro x fuel hx _
    simp only [List.replicate_zero, List.append_nil]
    exact strip_nul_noop fuel x hx
  | succ j ih =>
    intro x fuel hx hf
    have he : x ++ List.replicate (j + 1) 0 = (x ++ List.replicate j 0) ++ [0] := by
      rw [List.append_assoc]
      congr 1
      rw [show j + 1 = j + 1 from rfl, List.replicate_add]
      rfl
    cases fuel with
    | zero => omega
    | succ f =>
      rw [he]
      simp only [strip_nul_suffix]
      rw [if_pos (by simp), List.dropLast_concat]
      exact ih x f hx (by omega)

lemma headerTokens_particular (name digits : List Nat) (k : Nat)
    (hn : name ≠ []) (hnf : ∀ b ∈ name, b ≠ 0 ∧ b ≠ 32)
    (hdg : digits ≠ []) (hds : ∀ b ∈ digits, 48 ≤ b ∧ b ≤ 57) :
    headerTokens (name ++ 32 :: digits ++ List.replicate k 0) = [name, digits] := by
  obtain ⟨ds, dl, hdig⟩ : ∃ ds dl, digits = ds ++ [dl] :=
    ⟨digits.dropLast, digits.getLast hdg, (List.dropLast_append_getLast hdg).symm⟩
  have hdl48 : 48 ≤ dl := (hds dl (by rw [hdig]; simp)).1
  have hgl : (name ++ 32 :: digits).getLast? ≠ some 0 := by
    rw [show name ++ 32 :: digits = (name ++ 32 :: ds) ++ [dl] by rw [hdig]; simp]
    rw [List.getLast?_concat]
    intro hcon
    injection hcon with h0
    omega
  have hassoc : name ++ 32 :: digits ++ List.replicate k 0
      = (name ++ 32 :: digits) ++ List.replicate k 0 := by simp
  have hstrip : strip_nul_suffix ((name ++ 32 :: digits) ++ List.replicate k 0).length
      ((name ++ 32 :: digits) ++ List.replicate k 0) = name ++ 32 :: digits :=
    strip_nul_append_replicate k _ _ hgl (by simp; omega)
  rw [headerTokens, hassoc, hstrip]
  have hnamefree : ∀ b ∈ name, isHeaderSep b = false := by
    intro b hb
    obtain ⟨h0, h32⟩ := hnf b hb
    simp [isHeaderSep, h0, h32]
  have hdigfree : ∀ b ∈ digits, isHeaderSep b = false := by
    intro b hb
    have := hds b hb
    simp only [isHeaderSep, Bool.or_eq_false_iff, decide_eq_false_iff_not]
    omega
  have hsd : sliceSplit isHeaderSep digits = [digits] :=
    sliceSplit_sepfree _ _ hdigfree
  have hs32 : sliceSplit isHeaderSep (32 :: digits) = [] :: [digits] := by
    simp only [sliceSplit]
    rw [if_pos (by decide), hsd]
  have hsall := sliceSplit_sepfree_append isHeaderSep name hnamefree
    (32 :: digits) [] [digits] hs32
  rw [hsall]
  simp [List.filter_cons, List.isEmpty_iff, hn, hdg]

/-- Claim C7 (amended): `YModemHeader::parse` strips trailing NULs, splits on
NUL and space, and drops empty tokens; the first token becomes the file name,
and every later token must parse as a decimal `u64` — the size returned is
the value of the *last* token (each later token overwrites the previous
size), not necessarily the second.  In particular, for a payload of the form
`name SPACE digits NUL-padding` it returns exactly that name and that
number. -/
theorem ymodem_header_parse_tokens :
    (∀ (d t : List Nat) (ts : List (List Nat)) (s : List Nat) (v : Nat),
      headerTokens d = t :: (ts ++ [s]) →
      utf8Valid t = true →
      (∀ u ∈ ts, utf8Valid u = true ∧ (u64_from_str_radix u).isSome = true) →
      utf8Valid s = true → u64_from_str_radix s = some v →
      YModemHeader.parse d = some (t, v)) ∧
    (∀ (name digits : List Nat) (k : Nat),
      name ≠ [] → (∀ b ∈ name, b ≠ 0 ∧ b ≠ 32) → utf8Valid name = true →
      digits ≠ [] → (∀ b ∈ digits, 48 ≤ b ∧ b ≤ 57) → digits.length ≤ 19 →
      ∃ v, u64_from_str_radix digits = some v ∧
        YModemHeader.parse (name ++ 32 :: digits ++ List.replicate k 0) =
          some (name, v)) := by
  constructor
  · intro d t ts s v htok hut hts hus hv
    exact header_parse_last_token d t ts s v htok hts hut hus hv
  · intro name digits k hn hnf hu hdg hds hlen
    obtain ⟨v, hv⟩ := u64_digits_some digits hdg hds hlen
    refine ⟨v, hv, ?_⟩
    have htok := headerTokens_particular name digits k hn hnf hdg hds
    refine header_parse_last_token _ name [] digits v ?_ (by simp) hu ?_ hv
    · rw [htok]
      rfl
    · exact utf8Valid_of_ascii digits (fun b hb => by have := hds b hb; omega)

/-- Claim C7 counterexample: the header payload `"a 1 2"` has three tokens;
the claim says the size is the *second* token (1), but the code returns the
last token's value (2). -/
theorem ymodem_header_three_tokens :
    YModemHeader.parse [97, 32, 49, 32, 50] = some ([97], 2) ∧
    YModemHeader.parse [97, 32, 49, 32, 50] ≠ some ([97], 1) := by
  decide

/-- Claim C7 witness: payload `"ab 12"` plus three NULs parses to name
`"ab"` and size 12. -/
theorem ymodem_header_parse_tokens_witness :
    ∃ v, u64_from_str_radix [49, 50] = some v ∧
      YModemHeader.parse ([97, 98] ++ 32 :: [49, 50] ++ List.replicate 3 0) =
        some ([97, 98], v) :=
  ymodem_header_parse_tokens.2 [97, 98] [49, 50] 3 (by decide) (by decide) (by decide)
    (by decide) (by decide) (by decide)
